import Mathlib

/-!
Shallow embedding of the obsidian-imdb-lookup plugin core (src/main.ts):
identifier parsing, value transformation, filename sanitization,
front-matter merge, batch-sync tallying and raw front-matter insertion.
Strings are modelled as Lean strings; the character-level helpers mirror
the JavaScript string operations the source uses.
-/

namespace IMDBLookup

/-- Whitespace as recognized by the JavaScript string functions
(trim, the regex class backslash-s) restricted to the ASCII range. -/
def isJsWhitespace (c : Char) : Bool :=
  c = ' ' || c = '\t' || c = '\n' || c = '\r' || c = '\x0b' || c = '\x0c'

/-- Drop trailing characters satisfying p. -/
def dropTrailing (p : Char → Bool) (cs : List Char) : List Char :=
  (cs.reverse.dropWhile p).reverse

/-- Model of the JavaScript string trim method on character lists. -/
def jsTrimL (cs : List Char) : List Char :=
  dropTrailing isJsWhitespace (cs.dropWhile isJsWhitespace)

/-- Model of the JavaScript string trim method. -/
def jsTrim (s : String) : String := ⟨jsTrimL s.data⟩

/-- Split a character list at every occurrence of the separator,
as the JavaScript split method does (empty pieces are kept). -/
def splitOnChar (sep : Char) : List Char → List (List Char)
  | [] => [[]]
  | c :: rest =>
    if c = sep then
      [] :: splitOnChar sep rest
    else
      match splitOnChar sep rest with
      | l :: ls => (c :: l) :: ls
      | [] => [[c]]

/-- Numeric value of a list of decimal digit characters. -/
def digitsToNat (cs : List Char) : Nat :=
  cs.foldl (fun a c => a * 10 + (c.toNat - '0'.toNat)) 0

/-- Model of the JavaScript parseInt with radix 10: skip leading
whitespace, read an optional sign, then the longest run of decimal
digits; none when that run is empty (parseInt returns NaN). -/
def jsParseInt (v : String) : Option Int :=
  let core : List Char → Option Nat := fun cs =>
    let run := cs.takeWhile Char.isDigit
    if run = [] then none else some (digitsToNat run)
  match v.data.dropWhile isJsWhitespace with
  | '-' :: rest => (core rest).map (fun n => -(n : Int))
  | '+' :: rest => (core rest).map (fun n => (n : Int))
  | cs => (core cs).map (fun n => (n : Int))

/-- Lowercased month names with their one-based month numbers,
as accepted by the host date parser on day-month-year strings. -/
def monthNames : List (String × Nat) :=
  [("january", 1), ("february", 2), ("march", 3), ("april", 4),
   ("may", 5), ("june", 6), ("july", 7), ("august", 8),
   ("september", 9), ("october", 10), ("november", 11), ("december", 12)]

/-- Lowercase a character list. -/
def lowerL (cs : List Char) : List Char := cs.map Char.toLower

/-- Month number for a month-name token (full name or three-letter
abbreviation, any case); none when the token is not a month name. -/
def monthNum (cs : List Char) : Option Nat :=
  (monthNames.find? (fun mn =>
    lowerL cs = mn.1.data || lowerL cs = mn.1.data.take 3)).map (·.2)

/-- Models the host date parser (new Date on a string, followed by
toISOString with the clock at UTC) on the day-month-year strings the
provider emits, for example "05 May 2017"; none on anything else,
matching the invalid-date check in the source. -/
def jsParseDate (v : String) : Option (Nat × Nat × Nat) :=
  match splitOnChar ' ' v.data with
  | [d, m, y] =>
    if d ≠ [] ∧ d.length ≤ 2 ∧ d.all Char.isDigit ∧
        y.length = 4 ∧ y.all Char.isDigit then
      match monthNum m with
      | some mo =>
        let day := digitsToNat d
        if 1 ≤ day ∧ day ≤ 31 then some (digitsToNat y, mo, day) else none
      | none => none
    else none
  | _ => none

/-- Zero-pad a decimal rendering of n to two places. -/
def pad2 (n : Nat) : String := if n < 10 then "0" ++ toString n else toString n

/-- Render a (year, month, day) triple as YYYY-MM-DD, as the
date-to-ISO-string conversion in the source produces. -/
def isoDate (d : Nat × Nat × Nat) : String :=
  toString d.1 ++ "-" ++ pad2 d.2.1 ++ "-" ++ pad2 d.2.2

/-- A provider field value: a plain string, or the ratings-pair list
that the provider returns under its Ratings key. -/
inductive OMDBValue where
  | str : String → OMDBValue
  | ratings : List (String × String) → OMDBValue
deriving DecidableEq

/-- A note front-matter value, as produced by the transform:
string, number, string list, or a passed-through ratings list. -/
inductive FMValue where
  | str : String → FMValue
  | num : Int → FMValue
  | list : List String → FMValue
  | ratings : List (String × String) → FMValue
deriving DecidableEq

/-- The fields converted to wiki-link lists (linkFields in the source). -/
def linkFields : List String := ["Actors", "Director", "Genre", "Writer"]

/-- The comma-split, trim, drop-empty, wrap-in-brackets pipeline the
source applies to link fields. -/
def linkify (v : String) : List String :=
  (((splitOnChar ',' v.data).map jsTrimL).filter
    (fun item => item.length > 0)).map
    (fun item => ⟨'[' :: '[' :: (item ++ [']', ']'])⟩)

/-- Leading digit run match used by the Runtime branch
(regex caret, digit-plus); none when the value has no leading digit. -/
def runtimeMatch (v : String) : Option Nat :=
  let run := v.data.takeWhile Char.isDigit
  if run = [] then none else some (digitsToNat run)

/-- transformValue from the source. Ratings lists pass through; the
four link fields become wiki-link lists; Runtime takes its leading
digits as a number; Year is parseInt of the value; Released is the
parsed date rendered as YYYY-MM-DD; anything else (or any branch whose
parse fails, which in the source falls through the remaining
non-matching field tests) returns the raw string. -/
def transformValue (field : String) (value : OMDBValue) : FMValue :=
  match value with
  | .ratings rs => .ratings rs
  | .str v =>
    if linkFields.contains field then
      .list (linkify v)
    else if field = "Runtime" then
      match runtimeMatch v with
      | some n => .num (n : Int)
      | none => .str v
    else if field = "Year" then
      match jsParseInt v with
      | some n => .num n
      | none => .str v
    else if field = "Released" then
      match jsParseDate v with
      | some d => .str (isoDate d)
      | none => .str v
    else .str v

/-- Case-insensitive literal prefix strip: the pattern is given in
lowercase; each input character matches when its lowercase form equals
the pattern character. Returns the remainder after the pattern. -/
def stripCI : List Char → List Char → Option (List Char)
  | [], cs => some cs
  | _ :: _, [] => none
  | p :: ps, c :: cs => if c.toLower = p then stripCI ps cs else none

/-- One attempt of the URL regex (imdb dot com slash title slash,
then the captured group: tt case-insensitive followed by a maximal
nonempty digit run) at the current position. Returns the captured
characters in their original case. -/
def matchTitleAt (cs : List Char) : Option (List Char) :=
  match stripCI "imdb.com/title/".data cs with
  | none => none
  | some rest =>
    match rest with
    | a :: b :: ds =>
      if a.toLower = 't' ∧ b.toLower = 't' then
        if ds.takeWhile Char.isDigit = [] then none
        else some (a :: b :: ds.takeWhile Char.isDigit)
      else none
    | _ => none

/-- Leftmost search for the URL pattern, as the regex engine scans. -/
def urlExtract : List Char → Option (List Char)
  | [] => none
  | c :: rest =>
    match matchTitleAt (c :: rest) with
    | some r => some r
    | none => urlExtract rest

/-- Full-string identifier shape test: tt (any case) followed by
seven or more digits and nothing else (the anchored regex). -/
def idShape (cs : List Char) : Bool :=
  match cs with
  | a :: b :: ds =>
    a.toLower = 't' && b.toLower = 't' && decide (7 ≤ ds.length) &&
      ds.all Char.isDigit
  | _ => false

/-- parseIMDBId from the source: trim the input, try the URL pattern
first and return its captured group, otherwise accept the whole
trimmed input when it has the identifier shape, otherwise fail. -/
def parseIMDBId (input : String) : Option String :=
  let trimmed := jsTrim input
  match urlExtract trimmed.data with
  | some r => some ⟨r⟩
  | none => if idShape trimmed.data then some trimmed else none

/-- The characters the sanitizer replaces with a dash. -/
def invalidChar (c : Char) : Bool :=
  c = '\\' || c = '/' || c = ':' || c = '*' || c = '?' || c = '"' ||
    c = '<' || c = '>' || c = '|'

/-- Global replacement of colon-space by space-dash-space, resuming
after each replacement as the regex engine does. -/
def replaceColonSpace : List Char → List Char
  | ':' :: ' ' :: rest => ' ' :: '-' :: ' ' :: replaceColonSpace rest
  | c :: rest => c :: replaceColonSpace rest
  | [] => []

/-- Collapse every maximal run of characters satisfying p into a
single copy of r (the regex run-replacement). -/
def collapseRuns (p : Char → Bool) (r : Char) : List Char → List Char
  | [] => []
  | [c] => if p c then [r] else [c]
  | c :: d :: rest =>
    if p c ∧ p d then collapseRuns p r (d :: rest)
    else if p c then r :: collapseRuns p r (d :: rest)
    else c :: collapseRuns p r (d :: rest)

/-- sanitizeFilename from the source: replace colon-space with
space-dash-space, replace filesystem-invalid characters with a dash,
collapse whitespace runs to one space, strip leading and trailing
dots, collapse dash runs to one dash, trim, truncate to 200. -/
def sanitizeFilename (name : String) : String :=
  ⟨(jsTrimL (collapseRuns (fun c => c = '-') '-'
      (dropTrailing (fun c => c = '.')
        ((collapseRuns isJsWhitespace ' '
          ((replaceColonSpace name.data).map
            (fun c => if invalidChar c then '-' else c))).dropWhile
          (fun c => c = '.'))))).take 200⟩

/-- A note front-matter header, as the property-to-value mapping the
vault hands to the merge callback. -/
def Header := String → Option FMValue

/-- The provider record: field name to value, none for absent. -/
def ProviderRecord := String → Option OMDBValue

/-- Set one property of a header. -/
def setProp (fm : Header) (k : String) (v : FMValue) : Header :=
  fun p => if p = k then some v else fm p

/-- One field mapping from the settings list. -/
structure FieldMapping where
  omdbField : String
  noteProperty : String
  enabled : Bool

/-- One iteration of the merge loop in updateNoteFrontmatter:
disabled mappings do nothing; an absent field or the literal
sentinel string N-slash-A does nothing; otherwise the transformed
value is written to the target property. -/
def mergeStep (data : ProviderRecord) (fm : Header) (m : FieldMapping) : Header :=
  if m.enabled then
    match data m.omdbField with
    | some v =>
      if v = .str "N/A" then fm
      else setProp fm m.noteProperty (transformValue m.omdbField v)
    | none => fm
  else fm

/-- The merge over the whole mapping list, in list order
(updateNoteFrontmatter from the source). -/
def mergeFrontmatter (fm : Header) (data : ProviderRecord)
    (ms : List FieldMapping) : Header :=
  ms.foldl (mergeStep data) fm

/-- The value a single mapping would write to property p: some
transformed value when the mapping is enabled, targets p and the
provider field is present and not the sentinel; none otherwise. -/
def writeOf (data : ProviderRecord) (p : String) (m : FieldMapping) :
    Option FMValue :=
  if m.enabled = true ∧ m.noteProperty = p then
    match data m.omdbField with
    | some v =>
      if v = .str "N/A" then none
      else some (transformValue m.omdbField v)
    | none => none
  else none

/-- The last value written to property p by the mapping list, if any. -/
def lastWrite (data : ProviderRecord) (p : String) :
    List FieldMapping → Option FMValue
  | [] => none
  | m :: ms =>
    match lastWrite data p ms with
    | some v => some v
    | none => writeOf data p m

/-- The three per-note sync outcomes. -/
inductive SyncResult where
  | synced : SyncResult
  | skipped : SyncResult
  | error : SyncResult
deriving DecidableEq

/-- JavaScript truthiness of an optional front-matter value, as the
falsy checks in syncNote see it (undefined, empty string and zero are
falsy). -/
def jsTruthyFM : Option FMValue → Bool
  | none => false
  | some (.str s) => s ≠ ""
  | some (.num n) => n ≠ 0
  | some (.list _) => true
  | some (.ratings _) => true

/-- syncNote from the source, as a function of the inputs that decide
its outcome: the cached front matter (none when the note has none),
the configured identifier property and API key, and the result of the
fetch-and-update region, where the exception constructor stands for a
throw caught by the try block and ok none for the null the fetcher
returns on transport failure. -/
def syncNote (frontmatter : Option Header) (idProp apiKey : String)
    (fetched : Except Unit (Option ProviderRecord)) : SyncResult :=
  match frontmatter with
  | none => .skipped
  | some fm =>
    if jsTruthyFM (fm idProp) = false then .skipped
    else if apiKey = "" then .error
    else
      match fetched with
      | .error _ => .error
      | .ok none => .error
      | .ok (some data) =>
        if data "Response" = some (.str "False") then .error else .synced

/-- One iteration of the batch loop in syncAllMovies over the running
(synced, skipped, errors) counters: a normal outcome bumps its own
counter, an exception escaping a single note is caught and counted as
an error. -/
def batchStep (t : Nat × Nat × Nat) (r : Except Unit SyncResult) :
    Nat × Nat × Nat :=
  match r with
  | .ok .synced => (t.1 + 1, t.2.1, t.2.2)
  | .ok .skipped => (t.1, t.2.1 + 1, t.2.2)
  | .ok .error => (t.1, t.2.1, t.2.2 + 1)
  | .error _ => (t.1, t.2.1, t.2.2 + 1)

/-- The final tally of a batch run over the captured per-file results. -/
def batchTally (rs : List (Except Unit SyncResult)) : Nat × Nat × Nat :=
  rs.foldl batchStep (0, 0, 0)

/-- Whether a per-file result is counted in the errors counter. -/
def isErrorOutcome : Except Unit SyncResult → Bool
  | .ok .error => true
  | .error _ => true
  | _ => false

/-- JavaScript truthiness of an optional provider value. -/
def jsTruthyOMDB : Option OMDBValue → Bool
  | none => false
  | some (.str s) => s ≠ ""
  | some (.ratings _) => true

/-- String interpolation of a provider value, as the template literal
in renameNoteToTitle renders it (an array joins its object elements). -/
def jsValToString : OMDBValue → String
  | .str s => s
  | .ratings rs => String.intercalate "," (rs.map (fun _ => "[object Object]"))

/-- The desired base name computed by renameNoteToTitle: Title (Year)
for movies with a truthy year and the bare Title otherwise, passed
through the sanitizer; the type field defaults to movie when falsy. -/
def desiredBaseName (data : ProviderRecord) : String :=
  let title := jsValToString ((data "Title").getD (.str ""))
  let typeStr :=
    match data "Type" with
    | some v => if jsTruthyOMDB (some v) then jsValToString v else "movie"
    | none => "movie"
  let isMovie := typeStr = "movie"
  sanitizeFilename
    (if isMovie ∧ jsTruthyOMDB (data "Year") then
      title ++ " (" ++ jsValToString ((data "Year").getD (.str "")) ++ ")"
    else title)

/-- The rename decision of renameNoteToTitle: none when no rename
happens (missing or falsy title, or the sanitized desired base name
already equals the current base name), otherwise the new base name. -/
def renameTarget (basename : String) (data : ProviderRecord) : Option String :=
  if jsTruthyOMDB (data "Title") = false then none
  else if basename = desiredBaseName data then none
  else some (desiredBaseName data)

/-- The base name of a note after the rename step ran on it. -/
def afterRename (basename : String) (data : ProviderRecord) : String :=
  match renameTarget basename data with
  | some nb => nb
  | none => basename

/-- Scan for the earliest newline followed by three dashes (the lazy
group of the front-matter regex); returns the characters before it in
order and the characters after the three dashes. -/
def splitAtClose (acc : List Char) : List Char → Option (List Char × List Char)
  | [] => none
  | c :: rest =>
    if c = '\n' ∧ ['-', '-', '-'].isPrefixOf rest then
      some (acc.reverse, rest.drop 3)
    else splitAtClose (c :: acc) rest

/-- The front-matter match of insertOrReplaceIMDBID: content starting
with three dashes and a newline, up to the earliest closing delimiter.
Returns the block interior and the text after the closing dashes; none
when the match fails or the interior is empty (the source treats a
falsy empty capture as malformed). -/
def findFM (content : String) : Option (String × String) :=
  match content.data with
  | '-' :: '-' :: '-' :: '\n' :: rest =>
    match splitAtClose [] rest with
    | some (fm, after) => if fm = [] then none else some (⟨fm⟩, ⟨after⟩)
    | none => none
  | _ => none

/-- Model of the startsWith three-dashes test on raw content. -/
def startsWithDashes (content : String) : Bool :=
  match content.data with
  | '-' :: '-' :: '-' :: _ => true
  | _ => false

/-- Split a character list into its newline-separated lines. -/
def splitOnNl : List Char → List (List Char) := splitOnChar '\n'

/-- Join lines back with newlines. -/
def joinNl : List (List Char) → List Char
  | [] => []
  | [l] => l
  | l :: ls => l ++ '\n' :: joinNl ls

/-- The multiline regex test of insertOrReplaceIMDBID: some line of
the block interior starts with the property name and a colon. -/
def hasPropLine (prop : String) (fm : String) : Bool :=
  (splitOnNl fm.data).any (fun l => (prop.data ++ [':']).isPrefixOf l)

/-- Replace the first line starting with the property name and a colon
by the fresh property line (the non-global multiline replace). -/
def replaceLines (prop idv : List Char) : List (List Char) → List (List Char)
  | [] => []
  | l :: ls =>
    if (prop ++ [':']).isPrefixOf l then
      (prop ++ ':' :: ' ' :: idv) :: ls
    else l :: replaceLines prop idv ls

/-- The updated block interior when the property line already exists. -/
def replaceFm (prop idv fm : String) : String :=
  ⟨joinNl (replaceLines prop.data idv.data (splitOnNl fm.data))⟩

/-- insertOrReplaceIMDBID from the source. Content without a leading
dash run, or without a well-formed nonempty front-matter block, gets a
fresh minimal block prepended above the untouched content (the two
source branches produce the same string). Otherwise the matched block
span is rewritten in place: the existing property line is replaced
when present, else the property line is inserted right after the
opening delimiter; the text after the block is carried over unchanged,
since the second replace matches the same span as the first. -/
def insertOrReplaceIMDBID (prop imdbId content : String) : String :=
  if startsWithDashes content = false then
    "---\n" ++ prop ++ ": " ++ imdbId ++ "\n---\n\n" ++ content
  else
    match findFM content with
    | none => "---\n" ++ prop ++ ": " ++ imdbId ++ "\n---\n\n" ++ content
    | some (fm, rest) =>
      if hasPropLine prop fm then
        "---\n" ++ replaceFm prop imdbId fm ++ "\n---" ++ rest
      else
        "---\n" ++ prop ++ ": " ++ imdbId ++ "\n" ++ fm ++ "\n---" ++ rest

/-! Theorems -/

theorem mergeStep_eq (data : ProviderRecord) (fm : Header) (m : FieldMapping)
    (p : String) :
    mergeStep data fm m p =
      match writeOf data p m with
      | some v => some v
      | none => fm p := by
  unfold mergeStep writeOf setProp
  by_cases he : m.enabled = true
  · cases hv : data m.omdbField with
    | none => simp [he]
    | some v =>
      by_cases hna : v = .str "N/A"
      · simp [he, hv, hna]
      · by_cases hp : p = m.noteProperty
        · subst hp; simp [he, hv, hna]
        · have hp2 : ¬m.noteProperty = p := fun h => hp h.symm
          simp [he, hv, hna, hp, hp2]
  · simp [he]

theorem mergeFrontmatter_eq (ms : List FieldMapping) (fm : Header)
    (data : ProviderRecord) (p : String) :
    mergeFrontmatter fm data ms p =
      match lastWrite data p ms with
      | some v => some v
      | none => fm p := by
  induction ms generalizing fm with
  | nil => rfl
  | cons m ms ih =>
    show mergeFrontmatter (mergeStep data fm m) data ms p = _
    rw [ih]
    cases h : lastWrite data p ms with
    | some v => simp [lastWrite, h]
    | none => simp [lastWrite, h, mergeStep_eq]

/-- C1: for every header, provider record and mapping list, the merge
leaves a property at its prior value unless some enabled mapping
targets it with a provider field that is present and not the sentinel,
in which case the property ends at the transformed value of the last
such mapping in list order (each one overwriting the previous). -/
theorem merge_frame_and_effect (fm : Header) (data : ProviderRecord)
    (ms : List FieldMapping) (p : String) :
    mergeFrontmatter fm data ms p =
      match lastWrite data p ms with
      | some v => some v
      | none => fm p :=
  mergeFrontmatter_eq ms fm data p

/-- C9: merging the same provider record twice produces the same
header as merging it once, and running the rename decision on the base
name produced by a first rename performs no second rename. -/
theorem sync_idempotent :
    (∀ (fm : Header) (data : ProviderRecord) (ms : List FieldMapping)
      (p : String),
      mergeFrontmatter (mergeFrontmatter fm data ms) data ms p =
        mergeFrontmatter fm data ms p)
    ∧ (∀ (b : String) (data : ProviderRecord),
        renameTarget (afterRename b data) data = none) := by
  constructor
  · intro fm data ms p
    rw [mergeFrontmatter_eq ms (mergeFrontmatter fm data ms) data p,
      mergeFrontmatter_eq ms fm data p]
    cases h : lastWrite data p ms <;> simp
  · intro b data
    unfold afterRename
    cases h : renameTarget b data with
    | none => exact h
    | some nb =>
      unfold renameTarget at h ⊢
      by_cases ht : jsTruthyOMDB (data "Title") = false
      · rw [if_pos ht] at h
        exact absurd h (by simp)
      · rw [if_neg ht] at h ⊢
        by_cases hb : b = desiredBaseName data
        · rw [if_pos hb] at h
          exact absurd h (by simp)
        · rw [if_neg hb] at h
          have : nb = desiredBaseName data := by
            exact (Option.some.injEq _ _ ▸ h).symm ▸ rfl
          rw [if_pos this]

theorem batchTally_go (rs : List (Except Unit SyncResult)) :
    ∀ t : Nat × Nat × Nat,
      ((rs.foldl batchStep t).1 + (rs.foldl batchStep t).2.1 +
          (rs.foldl batchStep t).2.2 = t.1 + t.2.1 + t.2.2 + rs.length)
      ∧ (rs.foldl batchStep t).2.2 = t.2.2 + rs.countP isErrorOutcome := by
  induction rs with
  | nil => intro t; simp
  | cons r rs ih =>
    intro t
    have h := ih (batchStep t r)
    refine ⟨?_, ?_⟩
    · rw [List.foldl_cons]
      rw [h.1]
      cases r with
      | ok v => cases v <;> (simp [batchStep]; try omega)
      | error e => simp [batchStep]; omega
    · rw [List.foldl_cons, h.2]
      cases r with
      | ok v =>
        cases v <;>
          (simp [batchStep, isErrorOutcome, List.countP_cons]; try omega)
      | error e =>
        simp [batchStep, isErrorOutcome, List.countP_cons]
        omega

/-- C2: every per-note run yields exactly one of the three outcomes,
a throw escaping a single note is absorbed by the batch loop into the
errors counter, and the three counters of the final tally always sum
to the number of captured files. -/
theorem batch_outcomes_partition (rs : List (Except Unit SyncResult)) :
    ((batchTally rs).1 + (batchTally rs).2.1 + (batchTally rs).2.2 =
      rs.length)
    ∧ (batchTally rs).2.2 = rs.countP isErrorOutcome
    ∧ (∀ (fm : Option Header) (idProp apiKey : String)
        (f : Except Unit (Option ProviderRecord)),
        syncNote fm idProp apiKey f = .synced ∨
        syncNote fm idProp apiKey f = .skipped ∨
        syncNote fm idProp apiKey f = .error) := by
  refine ⟨?_, ?_, ?_⟩
  · have h := (batchTally_go rs (0, 0, 0)).1
    simpa [batchTally] using h
  · have h := (batchTally_go rs (0, 0, 0)).2
    simpa [batchTally] using h
  · intro fm idProp apiKey f
    cases h : syncNote fm idProp apiKey f
    · exact Or.inl rfl
    · exact Or.inr (Or.inl rfl)
    · exact Or.inr (Or.inr rfl)

/-- C3: every string value of one of the four link fields is split on
commas, each piece trimmed, empty pieces dropped, each survivor
wrapped in double square brackets, in the original order with no
deduplication; on the spec example the transform yields the two
wiki-links in order. -/
theorem link_fields_transform :
    (∀ s : String,
      transformValue "Actors" (.str s) = .list (linkify s) ∧
      transformValue "Director" (.str s) = .list (linkify s) ∧
      transformValue "Genre" (.str s) = .list (linkify s) ∧
      transformValue "Writer" (.str s) = .list (linkify s))
    ∧ transformValue "Actors" (.str "Chris Pratt, Zoe Saldaña") =
        .list ["[[Chris Pratt]]", "[[Zoe Saldaña]]"] := by
  constructor
  · intro s
    refine ⟨?_, ?_, ?_, ?_⟩ <;> rfl
  · decide

/-- C6: the transform of a Released value returns the parsed calendar
date rendered as YYYY-MM-DD when the value parses as a date and the
raw string unchanged when it does not; in particular the spec
examples hold. -/
theorem released_transform :
    (∀ v : String,
      transformValue "Released" (.str v) =
        match jsParseDate v with
        | some d => .str (isoDate d)
        | none => .str v)
    ∧ transformValue "Released" (.str "05 May 2017") = .str "2017-05-05"
    ∧ transformValue "Released" (.str "garbled") = .str "garbled" := by
  refine ⟨fun v => rfl, by decide, by decide⟩

/-- C7 counterexample: the claim says a Year value that is not
entirely an integer is returned unchanged, but the transform of a
string with a leading integer prefix returns that prefix as a number
instead of the raw string. -/
theorem year_transform_counterexample :
    transformValue "Year" (.str "2017 oops") = .num 2017 ∧
    transformValue "Year" (.str "2017 oops") ≠ .str "2017 oops" := by
  decide

/-- C7 amended: the transform of a Year value returns the integer
parsed from the longest leading signed digit prefix, after leading
whitespace, and the raw string unchanged only when no such prefix
exists; the spec examples still hold. -/
theorem year_transform_leading_int :
    (∀ v : String,
      transformValue "Year" (.str v) =
        match jsParseInt v with
        | some n => .num n
        | none => .str v)
    ∧ transformValue "Year" (.str "2017") = .num 2017
    ∧ transformValue "Year" (.str "unknown") = .str "unknown" := by
  refine ⟨fun v => rfl, by decide, by decide⟩

/-- C4 counterexample: the claim says parse returns the
lowercase-normalized identifier, but an uppercase identifier is
accepted and returned with its original case preserved. -/
theorem parse_id_case_counterexample :
    parseIMDBId "TT1234567" = some "TT1234567" ∧
    parseIMDBId "TT1234567" ≠ some "tt1234567" := by
  decide

theorem toLower_ne_i_of_digit (c : Char) (h : c.isDigit = true) :
    c.toLower ≠ 'i' := by
  simp only [Char.isDigit, Bool.and_eq_true, decide_eq_true_eq] at h
  have h57 : c.toNat ≤ 57 := UInt32.toNat_le_of_le (by decide) h.2
  unfold Char.toLower
  rw [if_neg (by omega)]
  intro hc
  rw [hc] at h57
  exact absurd h57 (by decide)

theorem matchTitleAt_none (c : Char) (cs : List Char)
    (h : c.toLower ≠ 'i') : matchTitleAt (c :: cs) = none := by
  unfold matchTitleAt
  rw [show ("imdb.com/title/").data = 'i' :: ("mdb.com/title/").data from rfl]
  unfold stripCI
  rw [if_neg h]

theorem urlExtract_none (cs : List Char)
    (h : ∀ c ∈ cs, c.toLower ≠ 'i') : urlExtract cs = none := by
  induction cs with
  | nil => rfl
  | cons c rest ih =>
    unfold urlExtract
    rw [matchTitleAt_none c rest (h c (List.mem_cons_self c rest))]
    exact ih fun d hd => h d (List.mem_cons_of_mem c hd)

/-- C4 amended: every input whose trimmed form has the identifier
shape (tt in any case followed by seven or more digits) is accepted
and returned exactly as trimmed, case preserved; and inputs matching
neither the shape nor the URL pattern are rejected. -/
theorem parse_id_accepts_shape :
    (∀ s : String, idShape (jsTrim s).data = true →
      parseIMDBId s = some (jsTrim s))
    ∧ parseIMDBId "abc" = none
    ∧ parseIMDBId "" = none
    ∧ parseIMDBId "tt123" = none := by
  refine ⟨?_, by decide, by decide, by decide⟩
  intro s h
  have hnone : urlExtract (jsTrim s).data = none := by
    apply urlExtract_none
    cases hd : (jsTrim s).data with
    | nil => simp
    | cons a tl =>
      cases tl with
      | nil => rw [hd] at h; exact absurd h (by simp [idShape])
      | cons b ds =>
        rw [hd] at h
        simp only [idShape, Bool.and_eq_true, decide_eq_true_eq,
          List.all_eq_true] at h
        intro c hc
        rcases List.mem_cons.1 hc with rfl | hc2
        · rw [h.1.1.1]; decide
        · rcases List.mem_cons.1 hc2 with rfl | hc3
          · rw [h.1.1.2]; decide
          · exact toLower_ne_i_of_digit c (h.2 c hc3)
  simp only [parseIMDBId]
  rw [hnone, if_pos h]

/-- C5 counterexample: the claim says URL-extracted identifiers are
validated against the seven-digit minimum, but a URL carrying a
three-digit identifier is accepted even though the identifier shape
test rejects it. -/
theorem parse_url_no_min_digits_counterexample :
    parseIMDBId "https://www.imdb.com/title/tt123/" = some "tt123" ∧
    idShape ("tt123").data = false := by
  decide

theorem takeWhile_append_of_all (p : Char → Bool) (xs ys : List Char)
    (hx : xs.all p = true)
    (hy : ∀ c, ys.head? = some c → p c = false) :
    (xs ++ ys).takeWhile p = xs := by
  induction xs with
  | nil =>
    cases ys with
    | nil => rfl
    | cons y ys => simp [List.takeWhile_cons, hy y rfl]
  | cons x xs ih =>
    simp only [List.all_cons, Bool.and_eq_true] at hx
    simp [List.takeWhile_cons, hx.1, ih hx.2]

theorem urlExtract_skip (pre cs : List Char)
    (h : ∀ c ∈ pre, c.toLower ≠ 'i') :
    urlExtract (pre ++ cs) = urlExtract cs := by
  induction pre with
  | nil => rfl
  | cons c rest ih =>
    rw [List.cons_append]
    rw [show urlExtract (c :: (rest ++ cs)) =
      (match matchTitleAt (c :: (rest ++ cs)) with
        | some r => some r
        | none => urlExtract (rest ++ cs)) from rfl]
    rw [matchTitleAt_none c _ (h c (List.mem_cons_self c rest))]
    exact ih fun d hd => h d (List.mem_cons_of_mem c hd)

/-- C5 amended: for inputs that trim to a provider URL of the
canonical form with tt and one or more digits after the title path
segment, parse extracts exactly the maximal digit run after tt,
regardless of trailing path segments or query strings, with no
minimum-digit validation applied to the extracted identifier. -/
theorem parse_url_extracts_id (s : String) (ds : List Char) (tail : String)
    (htrim : jsTrim s =
      "https://www.imdb.com/title/tt" ++ (⟨ds⟩ : String) ++ tail)
    (hne : ds ≠ [])
    (hdig : ds.all Char.isDigit = true)
    (htail : ∀ c, tail.data.head? = some c → c.isDigit = false) :
    parseIMDBId s = some ("tt" ++ (⟨ds⟩ : String)) := by
  have hrun : (ds ++ tail.data).takeWhile Char.isDigit = ds :=
    takeWhile_append_of_all Char.isDigit ds tail.data hdig htail
  have hmatch : matchTitleAt ('i' :: 'm' :: 'd' :: 'b' :: '.' :: 'c' :: 'o' :: 'm' :: '/' ::
      't' :: 'i' :: 't' :: 'l' :: 'e' :: '/' :: 't' :: 't' :: (ds ++ tail.data)) =
      some ('t' :: 't' ::ds) := by
    unfold matchTitleAt
    rw [show stripCI ("imdb.com/title/").data
      ('i' :: 'm' :: 'd' :: 'b' :: '.' :: 'c' :: 'o' :: 'm' :: '/' ::
        't' :: 'i' :: 't' :: 'l' :: 'e' :: '/' :: 't' :: 't' :: (ds ++ tail.data)) =
      some ('t' :: 't' :: (ds ++ tail.data)) from rfl]
    show (if ('t' : Char).toLower = 't' ∧ ('t' : Char).toLower = 't' then
        if (ds ++ tail.data).takeWhile Char.isDigit = [] then none
        else some ('t' :: 't' :: ((ds ++ tail.data).takeWhile Char.isDigit))
      else none) = some ('t' :: 't' ::ds)
    rw [hrun, if_pos (by decide), if_neg hne]
  have hurl : urlExtract ("https://www.imdb.com/title/tt" ++
      (⟨ds⟩ : String) ++ tail).data = some ('t' :: 't' ::ds) := by
    rw [show ("https://www.imdb.com/title/tt" ++ (⟨ds⟩ : String) ++ tail).data
      = ['h','t','t','p','s',':','/','/','w','w','w','.'] ++
        ('i' :: 'm' :: 'd' :: 'b' :: '.' :: 'c' :: 'o' :: 'm' :: '/' ::
          't' :: 'i' :: 't' :: 'l' :: 'e' :: '/' :: 't' :: 't' :: (ds ++ tail.data)) from rfl]
    rw [urlExtract_skip _ _ (by decide)]
    unfold urlExtract
    rw [hmatch]
  simp only [parseIMDBId]
  rw [htrim, hurl]
  rfl

theorem all_map_replace_invalid (l : List Char) :
    (l.map (fun c => if invalidChar c then '-' else c)).all
      (fun c => !invalidChar c) = true := by
  induction l with
  | nil => rfl
  | cons c rest ih =>
    simp only [List.map_cons, List.all_cons, ih, Bool.and_true]
    by_cases h : invalidChar c = true
    · rw [if_pos h]
      decide
    · rw [if_neg h, Bool.eq_false_iff.2 h]
      rfl

theorem all_collapseRuns (p : Char → Bool) (r : Char) (q : Char → Bool)
    (hr : q r = true) :
    ∀ l : List Char, l.all q = true → (collapseRuns p r l).all q = true := by
  intro l
  induction l with
  | nil => intro _; rfl
  | cons c rest ih =>
    intro h
    simp only [List.all_cons, Bool.and_eq_true] at h
    cases rest with
    | nil =>
      unfold collapseRuns
      by_cases hc : p c = true
      · rw [if_pos hc]
        simp [hr]
      · rw [if_neg hc]
        simp [h.1]
    | cons d rest2 =>
      unfold collapseRuns
      by_cases hc : p c = true <;> by_cases hd : p d = true
      · rw [if_pos ⟨hc, hd⟩]
        exact ih h.2
      · rw [if_neg (fun hcd => hd hcd.2), if_pos hc]
        rw [List.all_cons, Bool.and_eq_true]
        exact ⟨hr, ih h.2⟩
      · rw [if_neg (fun hcd => hc hcd.1), if_neg hc]
        rw [List.all_cons, Bool.and_eq_true]
        exact ⟨h.1, ih h.2⟩
      · rw [if_neg (fun hcd => hc hcd.1), if_neg hc]
        rw [List.all_cons, Bool.and_eq_true]
        exact ⟨h.1, ih h.2⟩

theorem all_dropWhile (q p : Char → Bool) (l : List Char)
    (h : l.all q = true) : (l.dropWhile p).all q = true := by
  induction l with
  | nil => rfl
  | cons c rest ih =>
    simp only [List.all_cons, Bool.and_eq_true] at h
    rw [List.dropWhile_cons]
    by_cases hc : p c = true
    · rw [if_pos hc]
      exact ih h.2
    · rw [if_neg hc, List.all_cons, Bool.and_eq_true]
      exact ⟨h.1, h.2⟩

theorem all_dropTrailing (q p : Char → Bool) (l : List Char)
    (h : l.all q = true) : (dropTrailing p l).all q = true := by
  unfold dropTrailing
  rw [List.all_reverse]
  exact all_dropWhile q p l.reverse (by rw [List.all_reverse]; exact h)

theorem all_jsTrimL (q : Char → Bool) (l : List Char)
    (h : l.all q = true) : (jsTrimL l).all q = true :=
  all_dropTrailing q isJsWhitespace _
    (all_dropWhile q isJsWhitespace l h)

theorem all_take (q : Char → Bool) (n : Nat) (l : List Char)
    (h : l.all q = true) : (l.take n).all q = true := by
  induction l generalizing n with
  | nil => simp
  | cons c rest ih =>
    cases n with
    | zero => rfl
    | succ m =>
      simp only [List.all_cons, Bool.and_eq_true] at h
      simp only [List.take_succ_cons, List.all_cons, Bool.and_eq_true]
      exact ⟨h.1, ih m h.2⟩

/-- C8: the sanitizer is total, its result contains none of the
filesystem-invalid characters (backslash, slash, colon, star,
question mark, double quote, angle brackets, pipe), and is at most
200 characters long; on the spec example the colon-space pair is
rendered as space-dash-space. -/
theorem sanitize_safe :
    (∀ s : String,
      (sanitizeFilename s).data.all (fun c => !invalidChar c) = true ∧
      (sanitizeFilename s).data.length ≤ 200)
    ∧ sanitizeFilename "Guardians of the Galaxy Vol. 2: Part One?" =
        "Guardians of the Galaxy Vol. 2 - Part One-" := by
  constructor
  · intro s
    constructor
    · show ((jsTrimL (collapseRuns (fun c => c = '-') '-'
        (dropTrailing (fun c => c = '.')
          ((collapseRuns isJsWhitespace ' '
            ((replaceColonSpace s.data).map
              (fun c => if invalidChar c then '-' else c))).dropWhile
            (fun c => c = '.'))))).take 200).all
          (fun c => !invalidChar c) = true
      exact all_take _ 200 _
        (all_jsTrimL _ _
          (all_collapseRuns _ '-' _ (by decide) _
            (all_dropTrailing _ _ _
              (all_dropWhile _ _ _
                (all_collapseRuns _ ' ' _ (by decide) _
                  (all_map_replace_invalid _))))))
    · show ((jsTrimL (collapseRuns (fun c => c = '-') '-'
        (dropTrailing (fun c => c = '.')
          ((collapseRuns isJsWhitespace ' '
            ((replaceColonSpace s.data).map
              (fun c => if invalidChar c then '-' else c))).dropWhile
            (fun c => c = '.'))))).take 200).length ≤ 200
      rw [List.length_take]
      exact Nat.min_le_left 200 _
  · decide

theorem splitOnChar_ne_nil (sep : Char) (cs : List Char) :
    splitOnChar sep cs ≠ [] := by
  cases cs with
  | nil => simp [splitOnChar]
  | cons c rest =>
    unfold splitOnChar
    by_cases hc : c = sep
    · rw [if_pos hc]; simp
    · rw [if_neg hc]
      cases h : splitOnChar sep rest <;> simp

theorem splitOnChar_no_sep (sep : Char) (cs : List Char) :
    ∀ l ∈ splitOnChar sep cs, sep ∉ l := by
  induction cs with
  | nil =>
    intro l hl
    simp [splitOnChar] at hl
    simp [hl]
  | cons c rest ih =>
    intro l hl
    unfold splitOnChar at hl
    by_cases hc : c = sep
    · rw [if_pos hc] at hl
      rcases List.mem_cons.1 hl with rfl | hl2
      · simp
      · exact ih l hl2
    · rw [if_neg hc] at hl
      cases h : splitOnChar sep rest with
      | nil => exact absurd h (splitOnChar_ne_nil sep rest)
      | cons x ls =>
        rw [h] at hl
        rcases List.mem_cons.1 hl with rfl | hl2
        · intro hmem
          rcases List.mem_cons.1 hmem with heq | hmem2
          · exact hc heq.symm
          · exact ih x (h ▸ List.mem_cons_self x ls) hmem2
        · exact ih l (h ▸ List.mem_cons_of_mem x hl2)

theorem splitOnNl_append (xs ys : List Char) (h : '\n' ∉ xs) :
    splitOnNl (xs ++ '\n' :: ys) = xs :: splitOnNl ys := by
  induction xs with
  | nil => rfl
  | cons x xs ih =>
    have hx : ¬x = '\n' := fun he => h (he ▸ List.mem_cons_self x xs)
    have hxs : '\n' ∉ xs := fun hm => h (List.mem_cons_of_mem x hm)
    rw [List.cons_append]
    show splitOnChar '\n' (x :: (xs ++ '\n' :: ys)) = _
    unfold splitOnChar
    rw [if_neg hx]
    rw [show splitOnChar '\n' (xs ++ '\n' :: ys) =
      splitOnNl (xs ++ '\n' :: ys) from rfl]
    rw [ih hxs]

theorem splitOnNl_no_nl (l : List Char) (h : '\n' ∉ l) :
    splitOnNl l = [l] := by
  induction l with
  | nil => rfl
  | cons c rest ih =>
    have hc : ¬c = '\n' := fun he => h (he ▸ List.mem_cons_self c rest)
    have hrest : '\n' ∉ rest := fun hm => h (List.mem_cons_of_mem c hm)
    show splitOnChar '\n' (c :: rest) = [c :: rest]
    unfold splitOnChar
    rw [if_neg hc]
    rw [show splitOnChar '\n' rest = splitOnNl rest from rfl, ih hrest]

theorem splitOnNl_joinNl (ls : List (List Char)) (hne : ls ≠ [])
    (h : ∀ l ∈ ls, '\n' ∉ l) :
    splitOnNl (joinNl ls) = ls := by
  induction ls with
  | nil => exact absurd rfl hne
  | cons l ls ih =>
    cases ls with
    | nil =>
      show splitOnNl l = [l]
      exact splitOnNl_no_nl l (h l (List.mem_cons_self l []))
    | cons l2 ls2 =>
      show splitOnNl (l ++ '\n' :: joinNl (l2 :: ls2)) = _
      rw [splitOnNl_append _ _ (h l (List.mem_cons_self l (l2 :: ls2)))]
      rw [ih (by simp) fun x hx => h x (List.mem_cons_of_mem l hx)]

theorem isPrefixOf_self_append (xs ys : List Char) :
    xs.isPrefixOf (xs ++ ys) = true := by
  induction xs with
  | nil => simp
  | cons x xs ih => simp [List.isPrefixOf_cons₂, ih]

theorem replaceLines_any (p i : List Char) (ls : List (List Char))
    (h : ls.any (fun l => (p ++ [':']).isPrefixOf l) = true) :
    (replaceLines p i ls).any (fun l => (p ++ [':']).isPrefixOf l) = true := by
  induction ls with
  | nil => simp at h
  | cons l ls ih =>
    unfold replaceLines
    by_cases hl : (p ++ [':']).isPrefixOf l = true
    · rw [if_pos hl]
      rw [List.any_cons]
      apply Bool.or_eq_true_iff.2
      left
      rw [show p ++ ':' :: ' ' :: i = (p ++ [':']) ++ ' ' :: i by
        rw [List.append_assoc]; rfl]
      exact isPrefixOf_self_append (p ++ [':']) (' ' :: i)
    · rw [if_neg hl]
      rw [List.any_cons] at h ⊢
      rcases Bool.or_eq_true_iff.1 h with h1 | h2
      · exact absurd h1 hl
      · exact Bool.or_eq_true_iff.2 (Or.inr (ih h2))

theorem replaceLines_ne_nil (p i : List Char) (ls : List (List Char))
    (h : ls ≠ []) : replaceLines p i ls ≠ [] := by
  cases ls with
  | nil => exact absurd rfl h
  | cons l ls =>
    unfold replaceLines
    by_cases hl : (p ++ [':']).isPrefixOf l = true
    · rw [if_pos hl]; simp
    · rw [if_neg hl]; simp

theorem replaceLines_no_nl (p i : List Char) (ls : List (List Char))
    (hls : ∀ l ∈ ls, '\n' ∉ l) (hp : '\n' ∉ p) (hi : '\n' ∉ i) :
    ∀ l ∈ replaceLines p i ls, '\n' ∉ l := by
  induction ls with
  | nil => intro l hl; simp [replaceLines] at hl
  | cons l ls ih =>
    intro x hx
    unfold replaceLines at hx
    by_cases hl : (p ++ [':']).isPrefixOf l = true
    · rw [if_pos hl] at hx
      rcases List.mem_cons.1 hx with rfl | hx2
      · intro hmem
        rcases List.mem_append.1 hmem with h1 | h2
        · exact hp h1
        · rcases List.mem_cons.1 h2 with heq | h3
          · exact absurd heq.symm (by decide)
          · rcases List.mem_cons.1 h3 with heq | h4
            · exact absurd heq.symm (by decide)
            · exact hi h4
      · exact hls x (List.mem_cons_of_mem l hx2)
    · rw [if_neg hl] at hx
      rcases List.mem_cons.1 hx with rfl | hx2
      · exact hls x (List.mem_cons_self x ls)
      · exact ih (fun y hy => hls y (List.mem_cons_of_mem l hy)) x hx2

theorem dashes_prefix (rest : List Char)
    (h : (['-', '-', '-'] : List Char).isPrefixOf rest = true) :
    rest = '-' :: '-' :: '-' :: rest.drop 3 := by
  match rest with
  | [] => exact absurd h (by decide)
  | [a] => exact absurd h (by simp [List.isPrefixOf])
  | [a, b] => exact absurd h (by simp [List.isPrefixOf])
  | a :: b :: c :: t =>
    simp only [List.isPrefixOf, Bool.and_eq_true, beq_iff_eq] at h
    obtain ⟨h1, h2, h3, _⟩ := h
    subst h1; subst h2; subst h3
    rfl

theorem splitAtClose_eq (cs : List Char) :
    ∀ (acc fm rest : List Char), splitAtClose acc cs = some (fm, rest) →
      fm ++ '\n' :: '-' :: '-' :: '-' :: rest = acc.reverse ++ cs := by
  induction cs with
  | nil => intro acc fm rest h; exact absurd h (by simp [splitAtClose])
  | cons c rest2 ih =>
    intro acc fm rest h
    unfold splitAtClose at h
    by_cases hc : c = '\n' ∧ (['-', '-', '-'] : List Char).isPrefixOf rest2 = true
    · rw [if_pos hc] at h
      obtain ⟨h1, h2⟩ := Prod.mk.injEq .. ▸ Option.some.inj h
      subst h1; subst h2
      rw [hc.1, dashes_prefix rest2 hc.2]
      rfl
    · rw [if_neg hc] at h
      have := ih (c :: acc) fm rest h
      rw [this]
      simp

theorem findFM_eq (content fm rest : String)
    (h : findFM content = some (fm, rest)) :
    content = "---\n" ++ fm ++ "\n---" ++ rest ∧ fm.data ≠ [] := by
  unfold findFM at h
  split at h
  · rename_i cs heq
    cases hsp : splitAtClose [] cs with
    | none => rw [hsp] at h; exact absurd h (by simp)
    | some pr =>
      obtain ⟨fmL, after⟩ := pr
      rw [hsp] at h
      replace h : (if fmL = [] then none
          else some ((⟨fmL⟩ : String), (⟨after⟩ : String))) =
          some (fm, rest) := h
      by_cases hfl : fmL = []
      · rw [if_pos hfl] at h
        exact absurd h (by simp)
      · rw [if_neg hfl] at h
        obtain ⟨h1, h2⟩ := Prod.mk.injEq .. ▸ Option.some.inj h
        have hrec := splitAtClose_eq cs [] fmL after hsp
        simp only [List.reverse_nil, List.nil_append] at hrec
        constructor
        · apply String.ext
          rw [heq, ← hrec, ← h1, ← h2]
          simp [String.data_append, List.append_assoc]
        · rw [← h1]
          exact hfl
  · exact absurd h (by simp)

/-- C10: the raw-text identifier insertion used by new-note creation
preserves everything outside the front-matter block: content without a
well-formed block keeps the whole original content verbatim beneath a
synthesized minimal block holding only the identifier property, and
content with a well-formed block keeps the text after the closing
delimiter unchanged while the block itself gains or keeps a line for
the identifier property. -/
theorem insert_id_preserves_body :
    (∀ (prop imdbId content : String), findFM content = none →
      insertOrReplaceIMDBID prop imdbId content =
        "---\n" ++ prop ++ ": " ++ imdbId ++ "\n---\n\n" ++ content)
    ∧ (∀ (prop imdbId content fm rest : String),
        findFM content = some (fm, rest) →
        '\n' ∉ prop.data → '\n' ∉ imdbId.data →
        content = "---\n" ++ fm ++ "\n---" ++ rest ∧
        ∃ fm' : String,
          insertOrReplaceIMDBID prop imdbId content =
            "---\n" ++ fm' ++ "\n---" ++ rest ∧
          hasPropLine prop fm' = true) := by
  constructor
  · intro prop imdbId content h
    unfold insertOrReplaceIMDBID
    by_cases hs : startsWithDashes content = false
    · rw [if_pos hs]
    · rw [if_neg hs, h]
  · intro prop imdbId content fm rest h hp hi
    obtain ⟨hcontent, hfm⟩ := findFM_eq content fm rest h
    refine ⟨hcontent, ?_⟩
    have hs : startsWithDashes content = true := by
      rw [hcontent]
      rfl
    have hred : insertOrReplaceIMDBID prop imdbId content =
        (if hasPropLine prop fm = true then
          "---\n" ++ replaceFm prop imdbId fm ++ "\n---" ++ rest
        else
          "---\n" ++ prop ++ ": " ++ imdbId ++ "\n" ++ fm ++ "\n---" ++
            rest) := by
      unfold insertOrReplaceIMDBID
      rw [if_neg (by rw [hs]; simp), h]
    rw [hred]
    by_cases hpl : hasPropLine prop fm = true
    · rw [if_pos hpl]
      refine ⟨replaceFm prop imdbId fm, rfl, ?_⟩
      unfold hasPropLine replaceFm
      show ((splitOnNl (joinNl
        (replaceLines prop.data imdbId.data (splitOnNl fm.data)))).any
        (fun l => (prop.data ++ [':']).isPrefixOf l)) = true
      have hne2 : splitOnNl fm.data ≠ [] := splitOnChar_ne_nil '\n' fm.data
      have hns2 : ∀ l ∈ splitOnNl fm.data, '\n' ∉ l :=
        splitOnChar_no_sep '\n' fm.data
      rw [splitOnNl_joinNl _
        (replaceLines_ne_nil _ _ _ hne2)
        (replaceLines_no_nl _ _ _ hns2 hp hi)]
      exact replaceLines_any prop.data imdbId.data (splitOnNl fm.data) hpl
    · rw [if_neg hpl]
      refine ⟨prop ++ ": " ++ imdbId ++ "\n" ++ fm, ?_, ?_⟩
      · rw [String.ext_iff]
        simp [String.data_append, List.append_assoc]
      · unfold hasPropLine
        rw [show (prop ++ ": " ++ imdbId ++ "\n" ++ fm).data =
          (prop.data ++ ':' :: ' ' :: imdbId.data) ++ '\n' :: fm.data by
          simp [String.data_append, List.append_assoc]]
        rw [splitOnNl_append _ _ (by
          intro hmem
          rcases List.mem_append.1 hmem with h1 | h2
          · exact hp h1
          · rcases List.mem_cons.1 h2 with heq | h3
            · exact absurd heq.symm (by decide)
            · rcases List.mem_cons.1 h3 with heq | h4
              · exact absurd heq.symm (by decide)
              · exact hi h4)]
        rw [List.any_cons]
        apply Bool.or_eq_true_iff.2
        left
        rw [show prop.data ++ ':' :: ' ' :: imdbId.data =
          (prop.data ++ [':']) ++ ' ' :: imdbId.data by
          rw [List.append_assoc]; rfl]
        exact isPrefixOf_self_append (prop.data ++ [':']) (' ' :: imdbId.data)


/-- Witness for the amended C4 theorem at a concrete input. -/
theorem parse_id_accepts_shape_witness :
    idShape (jsTrim " tt1234567 ").data = true ∧
    parseIMDBId " tt1234567 " = some (jsTrim " tt1234567 ") :=
  ⟨by decide, parse_id_accepts_shape.1 " tt1234567 " (by decide)⟩

/-- Witness for the amended C5 theorem at a concrete URL. -/
theorem parse_url_extracts_id_witness :
    jsTrim "https://www.imdb.com/title/tt123/x" =
      "https://www.imdb.com/title/tt" ++ (⟨['1', '2', '3']⟩ : String) ++
        "/x" ∧
    parseIMDBId "https://www.imdb.com/title/tt123/x" =
      some ("tt" ++ (⟨['1', '2', '3']⟩ : String)) :=
  ⟨by decide, parse_url_extracts_id "https://www.imdb.com/title/tt123/x"
    ['1', '2', '3'] "/x" (by decide) (by decide) (by decide)
    (fun c hc => by
      injection hc with h
      rw [← h]
      decide)⟩

/-- Witness for the C10 theorem on concrete contents. -/
theorem insert_id_preserves_body_witness :
    (findFM "plain body" = none ∧
      insertOrReplaceIMDBID "imdbid" "tt0000001" "plain body" =
        "---\nimdbid: tt0000001\n---\n\nplain body") ∧
    (findFM "---\ntitle: x\n---\nbody" = some ("title: x", "\nbody") ∧
      ("---\ntitle: x\n---\nbody" =
          "---\n" ++ "title: x" ++ "\n---" ++ "\nbody" ∧
        ∃ fm' : String,
          insertOrReplaceIMDBID "imdbid" "tt0000001"
              "---\ntitle: x\n---\nbody" =
            "---\n" ++ fm' ++ "\n---" ++ "\nbody" ∧
          hasPropLine "imdbid" fm' = true)) :=
  ⟨⟨by decide, insert_id_preserves_body.1 "imdbid" "tt0000001" "plain body"
      (by decide)⟩,
   ⟨by decide, insert_id_preserves_body.2 "imdbid" "tt0000001"
      "---\ntitle: x\n---\nbody" "title: x" "\nbody" (by decide)
      (by decide) (by decide)⟩⟩

end IMDBLookup
